import Mathlib

/-!
Verification of the move-search core of the chess program (`chess_gui.py`,
class `ChessGame`).  The external rules engine (the `python-chess` library)
is modelled as an abstract capability interface `Rules`, exactly as the
specification prescribes (§1, §6): legal-move generation, make/unmake of
moves and null moves, terminal detection, piece lookup and FEN
serialization are opaque operations.  The mutable board with its push/pop
stack, the transposition table (a dict keyed by FEN) and the stream of
`random.randint(-10, 10)` jitter draws are threaded explicitly through
every search function as a `SearchState`.
-/

/-- Scores in the Python code mix evaluation integers with `float('inf')` and
`float('-inf')` (used to initialise `alpha`, `beta`, `max_eval`, `min_eval`).
`XInt` is the integers extended with the two infinities. -/
inductive XInt where
  | ninf : XInt
  | fin : Int → XInt
  | pinf : XInt
deriving DecidableEq

/-- The `<=` comparison of the Python floats, restricted to `XInt`. -/
def XInt.ble : XInt → XInt → Bool
  | .ninf, _ => true
  | .fin _, .ninf => false
  | .fin a, .fin b => a ≤ b
  | .fin _, .pinf => true
  | .pinf, .pinf => true
  | .pinf, _ => false

/-- Strict `<` on the extended scores (total order, so `a < b ↔ ¬ b ≤ a`). -/
def XInt.blt (a b : XInt) : Bool := !(XInt.ble b a)

/-- Python's `max` on two extended scores. -/
def XInt.xmax (a b : XInt) : XInt := if XInt.ble a b then b else a

/-- Python's `min` on two extended scores. -/
def XInt.xmin (a b : XInt) : XInt := if XInt.ble a b then a else b

/-- Negation of an extended score (used by the negamax quiescence search). -/
def XInt.xneg : XInt → XInt
  | .ninf => .pinf
  | .fin a => .fin (-a)
  | .pinf => .ninf

/-- A piece as the search core sees it: a `python-chess` piece type
(PAWN = 1, KNIGHT = 2, BISHOP = 3, ROOK = 4, QUEEN = 5, KING = 6) together
with its colour (`white = true` is `chess.WHITE`). -/
structure Piece where
  ptype : Nat
  white : Bool
deriving DecidableEq

/-- The capability interface the search core consumes from the external
rules engine (spec §6).  `P` is the opaque position type, `M` the move
type.  `apply_move`/`apply_null` return the successor position; the stack
discipline of `board.push`/`board.pop` is modelled by `GBoard` below. -/
structure Rules (P M : Type) where
  legal_moves : P → List M
  apply_move : P → M → P
  apply_null : P → P
  is_game_over : P → Bool
  is_checkmate : P → Bool
  is_stalemate : P → Bool
  is_insufficient_material : P → Bool
  turn_white : P → Bool
  fen : P → String
  is_capture : P → M → Bool
  piece_at : P → Nat → Option Piece
  has_castling_rights : P → Bool → Bool
  move_promotion : M → Bool
  move_from : M → Nat
  move_to : M → Nat

/-- The mutable `chess.Board`: the current position plus the undo stack.
`board.push(m)` saves the current position on the stack; `board.pop()`
restores the most recently saved one. -/
structure GBoard (P : Type) where
  cur : P
  stack : List P
deriving DecidableEq

/-- `board.push(move)`. -/
def GBoard.push {P M : Type} (R : Rules P M) (b : GBoard P) (m : M) : GBoard P :=
  ⟨R.apply_move b.cur m, b.cur :: b.stack⟩

/-- `board.push(chess.Move.null())`. -/
def GBoard.pushNull {P M : Type} (R : Rules P M) (b : GBoard P) : GBoard P :=
  ⟨R.apply_null b.cur, b.cur :: b.stack⟩

/-- `board.pop()`.  (python-chess raises on an empty stack; the embedded
code never pops an empty stack, every pop is preceded by a push.) -/
def GBoard.pop {P : Type} : GBoard P → GBoard P
  | ⟨c, []⟩ => ⟨c, []⟩
  | ⟨_, p :: rest⟩ => ⟨p, rest⟩

/-- One transposition-table entry: key (the position's FEN string) together
with the pair `(depth searched, score)` stored by `minimax`. -/
abbrev TTable := List (String × Nat × XInt)

/-- Lookup of `self.transposition_table[board_hash]` (with the containment
test `board_hash in self.transposition_table`). -/
def tt_find (tt : TTable) (k : String) : Option (Nat × XInt) :=
  match tt with
  | [] => none
  | (k2, d, s) :: rest => if k2 = k then some (d, s) else tt_find rest k

/-- The transposition probe of `minimax`:
`board_hash in table and table[board_hash][0] >= depth` yields the cached
score `table[board_hash][1]`; a missing key or a shallower stored depth is
a miss. -/
def tt_probe (tt : TTable) (k : String) (depth : Nat) : Option XInt :=
  match tt_find tt k with
  | some (d, s) => if depth ≤ d then some s else none
  | none => none

/-- The dict assignment `self.transposition_table[board_hash] = (depth, score)`:
unconditionally replaces any existing entry for that key. -/
def tt_store (tt : TTable) (k : String) (depth : Nat) (s : XInt) : TTable :=
  match tt with
  | [] => [(k, depth, s)]
  | (k2, d2, s2) :: rest =>
    if k2 = k then (k, depth, s) :: rest else (k2, d2, s2) :: tt_store rest k depth s

/-- The state threaded through the search: the shared board, the
transposition table, and the stream of pending `random.randint(-10, 10)`
draws (one draw is consumed by each non-terminal `evaluate_board` call;
an exhausted list models a generator that keeps returning 0). -/
structure SearchState (P : Type) where
  board : GBoard P
  tt : TTable
  rng : List Int
deriving DecidableEq

/-- `PIECE_VALS`: pawn 100, knight 320, bishop 330, rook 500, queen 900,
king 20000. -/
def piece_vals (pt : Nat) : Int :=
  match pt with
  | 1 => 100
  | 2 => 320
  | 3 => 330
  | 4 => 500
  | 5 => 900
  | 6 => 20000
  | _ => 0

/-- `POSITION_TABLES[chess.PAWN]`. -/
def pawn_table : List Int :=
  [0, 0, 0, 0, 0, 0, 0, 0,
   50, 50, 50, 50, 50, 50, 50, 50,
   10, 10, 20, 30, 30, 20, 10, 10,
   5, 5, 10, 25, 25, 10, 5, 5,
   0, 0, 0, 20, 20, 0, 0, 0,
   5, -5, -10, 0, 0, -10, -5, 5,
   5, 10, 10, -20, -20, 10, 10, 5,
   0, 0, 0, 0, 0, 0, 0, 0]

/-- `POSITION_TABLES[chess.KNIGHT]`. -/
def knight_table : List Int :=
  [-50, -40, -30, -30, -30, -30, -40, -50,
   -40, -20, 0, 0, 0, 0, -20, -40,
   -30, 0, 10, 15, 15, 10, 0, -30,
   -30, 5, 15, 20, 20, 15, 5, -30,
   -30, 0, 15, 20, 20, 15, 0, -30,
   -30, 5, 10, 15, 15, 10, 5, -30,
   -40, -20, 0, 5, 5, 0, -20, -40,
   -50, -40, -30, -30, -30, -30, -40, -50]

/-- `POSITION_TABLES[chess.BISHOP]`. -/
def bishop_table : List Int :=
  [-20, -10, -10, -10, -10, -10, -10, -20,
   -10, 0, 0, 0, 0, 0, 0, -10,
   -10, 0, 10, 10, 10, 10, 0, -10,
   -10, 5, 5, 10, 10, 5, 5, -10,
   -10, 0, 5, 10, 10, 5, 0, -10,
   -10, 5, 5, 5, 5, 5, 5, -10,
   -10, 0, 5, 0, 0, 5, 0, -10,
   -20, -10, -10, -10, -10, -10, -10, -20]

/-- `POSITION_TABLES[chess.ROOK]`. -/
def rook_table : List Int :=
  [0, 0, 0, 0, 0, 0, 0, 0,
   5, 10, 10, 10, 10, 10, 10, 5,
   -5, 0, 0, 0, 0, 0, 0, -5,
   -5, 0, 0, 0, 0, 0, 0, -5,
   -5, 0, 0, 0, 0, 0, 0, -5,
   -5, 0, 0, 0, 0, 0, 0, -5,
   -5, 0, 0, 0, 0, 0, 0, -5,
   0, 0, 0, 5, 5, 0, 0, 0]

/-- `POSITION_TABLES[chess.QUEEN]`. -/
def queen_table : List Int :=
  [-20, -10, -10, -5, -5, -10, -10, -20,
   -10, 0, 0, 0, 0, 0, 0, -10,
   -10, 0, 5, 5, 5, 5, 0, -10,
   -5, 0, 5, 5, 5, 5, 0, -5,
   0, 0, 5, 5, 5, 5, 0, -5,
   -10, 5, 5, 5, 5, 5, 0, -10,
   -10, 0, 5, 0, 0, 0, 0, -10,
   -20, -10, -10, -5, -5, -10, -10, -20]

/-- `POSITION_TABLES[chess.KING]` (middle-game table). -/
def king_table : List Int :=
  [-30, -40, -40, -50, -50, -40, -40, -30,
   -30, -40, -40, -50, -50, -40, -40, -30,
   -30, -40, -40, -50, -50, -40, -40, -30,
   -30, -40, -40, -50, -50, -40, -40, -30,
   -20, -30, -30, -40, -40, -30, -30, -20,
   -10, -20, -20, -20, -20, -20, -20, -10,
   20, 20, 0, 0, 0, 0, 20, 20,
   20, 30, 10, 0, 0, 10, 30, 20]

/-- `POSITION_TABLES[chess.KING + 100]` (endgame king table). -/
def king_end_table : List Int :=
  [-50, -40, -30, -20, -20, -30, -40, -50,
   -30, -20, -10, 0, 0, -10, -20, -30,
   -30, -10, 20, 30, 30, 20, -10, -30,
   -30, -10, 30, 40, 40, 30, -10, -30,
   -30, -10, 30, 40, 40, 30, -10, -30,
   -30, -10, 20, 30, 30, 20, -10, -30,
   -30, -30, 0, 0, 0, 0, -30, -30,
   -50, -30, -30, -30, -30, -30, -30, -50]

/-- `POSITION_TABLES.get(piece_type, [0] * 64)` for the non-endgame-king
tables (dict keys 1..6; the default of `.get` for any other key). -/
def position_table (pt : Nat) : List Int :=
  match pt with
  | 1 => pawn_table
  | 2 => knight_table
  | 3 => bishop_table
  | 4 => rook_table
  | 5 => queen_table
  | 6 => king_table
  | _ => List.replicate 64 0

/-- `chess.square_mirror(sq)`: vertical mirror, `sq ^ 0x38`. -/
def square_mirror (sq : Nat) : Nat := sq ^^^ 56

/-- `len(self.board.pieces(pt, colour))`, derived from `piece_at` (the
library keeps the two views consistent). -/
def piece_count {P M : Type} (R : Rules P M) (b : P) (pt : Nat) (white : Bool) : Nat :=
  ((List.range 64).filter (fun sq => decide (R.piece_at b sq = some ⟨pt, white⟩))).length

/-- `ChessGame._is_endgame`: no queens on the board, or at most 10 pieces
in total. -/
def is_endgame {P M : Type} (R : Rules P M) (b : P) : Bool :=
  let queens := piece_count R b 5 true + piece_count R b 5 false
  let total :=
    (List.range 6).foldl
      (fun acc i => acc + piece_count R b (i + 1) true + piece_count R b (i + 1) false) 0
  queens == 0 || total ≤ 10

/-- The material and positional accumulation loop of `evaluate_board`
(`for sq in chess.SQUARES`), returning
`(w_material, b_material, w_position, b_position)`.  Black positional
indices are mirrored; the king uses the endgame table when `is_endgame`. -/
def material_position {P M : Type} (R : Rules P M) (b : P) (endgame : Bool) :
    Int × Int × Int × Int :=
  (List.range 64).foldl
    (fun acc sq =>
      match R.piece_at b sq with
      | none => acc
      | some pc =>
        let v := piece_vals pc.ptype
        let idx := if pc.white then sq else square_mirror sq
        let pv :=
          if pc.ptype == 6 && endgame then king_end_table.getD idx 0
          else (position_table pc.ptype).getD idx 0
        if pc.white then (acc.1 + v, acc.2.1, acc.2.2.1 + pv, acc.2.2.2)
        else (acc.1, acc.2.1 + v, acc.2.2.1, acc.2.2.2 + pv))
    (0, 0, 0, 0)

/-- The per-file pawn count of the doubled-pawn loop
(`sq = chess.square(file, rank) = rank * 8 + file`). -/
def pawns_in_file {P M : Type} (R : Rules P M) (b : P) (file : Nat) (white : Bool) : Nat :=
  ((List.range 8).filter
    (fun rank => decide (R.piece_at b (rank * 8 + file) = some ⟨1, white⟩))).length

/-- The total doubled-pawn penalty subtracted from one side's positional
score: `(count - 1) * 15` summed over the files with more than one pawn. -/
def doubled_penalty {P M : Type} (R : Rules P M) (b : P) (white : Bool) : Int :=
  (List.range 8).foldl
    (fun acc file =>
      let c := pawns_in_file R b file white
      if 1 < c then acc + (Int.ofNat c - 1) * 15 else acc)
    0

/-- The score computed by `ChessGame.evaluate_board` as a function of the
position and of the jitter draw `random.randint(-10, 10)` consumed by the
non-terminal branch.  Mobility temporarily switches the side to move with
a null move, so the opponent's legal moves are those of `apply_null b`. -/
def eval_val {P M : Type} (R : Rules P M) (b : P) (jitter : Int) : Int :=
  if R.is_checkmate b then (if R.turn_white b then -10000 else 10000)
  else if R.is_stalemate b || R.is_insufficient_material b then 0
  else
    let endgame := is_endgame R b
    let mp := material_position R b endgame
    let mob : Int × Int :=
      if R.turn_white b then
        (((R.legal_moves b).length : Int) * 5, ((R.legal_moves (R.apply_null b)).length : Int) * 5)
      else
        (((R.legal_moves (R.apply_null b)).length : Int) * 5, ((R.legal_moves b).length : Int) * 5)
    let castling_value : Int :=
      (if R.has_castling_rights b true then 60 else 0) +
        (if R.has_castling_rights b false then -60 else 0)
    let w_position := mp.2.2.1 - doubled_penalty R b true
    let b_position := mp.2.2.2 - doubled_penalty R b false
    let material_score := mp.1 - mp.2.1
    let position_score := w_position - b_position
    let mobility_score := mob.1 - mob.2
    material_score + position_score + mobility_score + castling_value + jitter

/-- `ChessGame.evaluate_board`, with the board mutation made explicit: the
terminal branches return before touching the board or the random
generator; the main branch measures the opponent's mobility by pushing a
null move and popping it again, and consumes one jitter draw. -/
def evaluate_board {P M : Type} (R : Rules P M) (st : SearchState P) : Int × SearchState P :=
  let b := st.board.cur
  if R.is_checkmate b then ((if R.turn_white b then -10000 else 10000), st)
  else if R.is_stalemate b || R.is_insufficient_material b then (0, st)
  else
    let endgame := is_endgame R b
    let mp := material_position R b endgame
    let mob : Int × Int × GBoard P :=
      if R.turn_white b then
        let w_mobility := ((R.legal_moves b).length : Int) * 5
        let b1 := st.board.pushNull R
        let b_mobility := ((R.legal_moves b1.cur).length : Int) * 5
        let b2 := b1.pop
        (w_mobility, b_mobility, b2)
      else
        let b_mobility := ((R.legal_moves b).length : Int) * 5
        let b1 := st.board.pushNull R
        let w_mobility := ((R.legal_moves b1.cur).length : Int) * 5
        let b2 := b1.pop
        (w_mobility, b_mobility, b2)
    let castling_value : Int :=
      (if R.has_castling_rights b true then 60 else 0) +
        (if R.has_castling_rights b false then -60 else 0)
    let w_position := mp.2.2.1 - doubled_penalty R b true
    let b_position := mp.2.2.2 - doubled_penalty R b false
    let material_score := mp.1 - mp.2.1
    let position_score := w_position - b_position
    let mobility_score := mob.1 - mob.2.1
    let total_score := material_score + position_score + mobility_score + castling_value
    (total_score + st.rng.headD 0, ⟨mob.2.2, st.tt, st.rng.tail⟩)

/-- The condition of the `assert self.board.fen() == current_state` checks
guarding the mobility null move in `evaluate_board`: the FEN saved before
the null-move push is compared with the FEN after the pop. -/
def mobility_assert {P M : Type} (R : Rules P M) (b : GBoard P) : Bool :=
  let current_state := R.fen b.cur
  let b1 := b.pushNull R
  let b2 := b1.pop
  R.fen b2.cur == current_state

/-- The per-move score of `ChessGame._order_moves`: MVV-LVA for captures
(when both victim and aggressor squares hold a piece; an en-passant victim
square is empty and scores 0), a flat 900 bonus for promotions, plus the
positional-table value of the destination square for the moving piece
(mirrored when the mover is black). -/
def move_score {P M : Type} (R : Rules P M) (b : P) (m : M) : Int :=
  let score0 : Int :=
    if R.is_capture b m then
      match R.piece_at b (R.move_to m), R.piece_at b (R.move_from m) with
      | some victim, some aggressor =>
        10 * piece_vals victim.ptype - piece_vals aggressor.ptype
      | _, _ => 0
    else 0
  let score1 := score0 + (if R.move_promotion m then 900 else 0)
  match R.piece_at b (R.move_from m) with
  | some piece =>
    let to_sq := if piece.white then R.move_to m else square_mirror (R.move_to m)
    score1 + (position_table piece.ptype).getD to_sq 0
  | none => score1

/-- `ChessGame._order_moves`: score every move, then sort the pairs by
descending score.  Python's `list.sort(key=..., reverse=True)` is a stable
descending sort, which is exactly `insertionSort` under the relation
`y.2 ≤ x.2`. -/
def order_moves {P M : Type} (R : Rules P M) (b : P) (moves : List M) : List M :=
  let scored_moves := moves.map (fun m => (m, move_score R b m))
  (scored_moves.insertionSort (fun x y => y.2 ≤ x.2)).map Prod.fst

/-- The capture loop of `ChessGame._quiescence_search`, parameterised by
the recursive call `child` at the next-smaller quiescence budget.  Each
iteration pushes the capture, negamax-recurses with the window negated and
swapped, pops, fails high with `beta` when `score >= beta`, and otherwise
raises `alpha`. -/
def qs_loop {P M : Type} (R : Rules P M)
    (child : XInt → XInt → SearchState P → XInt × SearchState P) (beta : XInt) :
    List M → XInt → SearchState P → XInt × SearchState P
  | [], alpha, st => (alpha, st)
  | m :: ms, alpha, st =>
    let st1 : SearchState P := ⟨st.board.push R m, st.tt, st.rng⟩
    let r := child (XInt.xneg beta) (XInt.xneg alpha) st1
    let score := XInt.xneg r.1
    let st2 : SearchState P := ⟨r.2.board.pop, r.2.tt, r.2.rng⟩
    if XInt.ble beta score then (beta, st2)
    else
      let alpha1 := if XInt.blt alpha score then score else alpha
      qs_loop R child beta ms alpha1 st2

/-- `ChessGame._quiescence_search(alpha, beta, depth)`: stand-pat
evaluation, immediate `beta` fail-high, alpha raise, stand-pat return once
the budget is exhausted, then the ordered capture-only negamax loop. -/
def quiescence_search {P M : Type} (R : Rules P M) (depth : Nat) (alpha beta : XInt)
    (st : SearchState P) : XInt × SearchState P :=
  let e := evaluate_board R st
  let stand_pat := XInt.fin e.1
  if XInt.ble beta stand_pat then (beta, e.2)
  else
    let alpha1 := if XInt.blt alpha stand_pat then stand_pat else alpha
    match depth with
    | 0 => (stand_pat, e.2)
    | d + 1 =>
      let capturing_moves :=
        (R.legal_moves e.2.board.cur).filter (fun m => R.is_capture e.2.board.cur m)
      let ordered := order_moves R e.2.board.cur capturing_moves
      qs_loop R (fun a b st2 => quiescence_search R d a b st2) beta ordered alpha1 e.2
termination_by structural depth

/-- The maximizing move loop of `ChessGame.minimax`, parameterised by the
recursive call `child` one ply down (which receives the running `alpha`
and the fixed `beta`).  Carries `(max_eval, alpha)`; the `break` on
`beta <= alpha` happens after the pop. -/
def ab_loop_max {P M : Type} (R : Rules P M)
    (child : XInt → SearchState P → XInt × SearchState P) (beta : XInt) :
    List M → XInt → XInt → SearchState P → XInt × SearchState P
  | [], max_eval, _, st => (max_eval, st)
  | m :: ms, max_eval, alpha, st =>
    let st1 : SearchState P := ⟨st.board.push R m, st.tt, st.rng⟩
    let r := child alpha st1
    let st2 : SearchState P := ⟨r.2.board.pop, r.2.tt, r.2.rng⟩
    let max_eval1 := XInt.xmax max_eval r.1
    let alpha1 := XInt.xmax alpha r.1
    if XInt.ble beta alpha1 then (max_eval1, st2)
    else ab_loop_max R child beta ms max_eval1 alpha1 st2

/-- The minimizing move loop of `ChessGame.minimax` (mirror image of
`ab_loop_max`: carries `(min_eval, beta)`, the child receives the running
`beta` and the fixed `alpha`). -/
def ab_loop_min {P M : Type} (R : Rules P M)
    (child : XInt → SearchState P → XInt × SearchState P) (alpha : XInt) :
    List M → XInt → XInt → SearchState P → XInt × SearchState P
  | [], min_eval, _, st => (min_eval, st)
  | m :: ms, min_eval, beta, st =>
    let st1 : SearchState P := ⟨st.board.push R m, st.tt, st.rng⟩
    let r := child beta st1
    let st2 : SearchState P := ⟨r.2.board.pop, r.2.tt, r.2.rng⟩
    let min_eval1 := XInt.xmin min_eval r.1
    let beta1 := XInt.xmin beta r.1
    if XInt.ble beta1 alpha then (min_eval1, st2)
    else ab_loop_min R child alpha ms min_eval1 beta1 st2

/-- The base case of `minimax` (`depth == 0 or self.board.is_game_over()`):
with quiescence enabled on a non-terminal position, extend via
`_quiescence_search(alpha, beta, 3)`; otherwise return the static
evaluation. -/
def minimax_base {P M : Type} (R : Rules P M) (alpha beta : XInt) (quiescence : Bool)
    (st : SearchState P) : XInt × SearchState P :=
  if quiescence && !(R.is_game_over st.board.cur) then quiescence_search R 3 alpha beta st
  else
    let e := evaluate_board R st
    (XInt.fin e.1, e.2)

/-- `ChessGame.minimax(depth, alpha, beta, maximizing, quiescence)`.
The transposition probe (skipped when the `quiescence` flag is set) comes
first; then the base case; then the move loop — moves are ordered only
when the `quiescence` flag is off — and finally (again only with the flag
off) the result is stored in the table under the entry FEN. -/
def minimax {P M : Type} (R : Rules P M) (depth : Nat) (alpha beta : XInt)
    (maximizing quiescence : Bool) (st : SearchState P) : XInt × SearchState P :=
  let board_hash := R.fen st.board.cur
  match (if quiescence then none else tt_probe st.tt board_hash depth) with
  | some cached => (cached, st)
  | none =>
    match depth with
    | 0 => minimax_base R alpha beta quiescence st
    | d + 1 =>
      if R.is_game_over st.board.cur then minimax_base R alpha beta quiescence st
      else
        let moves := R.legal_moves st.board.cur
        let moves1 := if quiescence then moves else order_moves R st.board.cur moves
        if maximizing then
          let r :=
            ab_loop_max R (fun a st2 => minimax R d a beta false quiescence st2)
              beta moves1 XInt.ninf alpha st
          if quiescence then r
          else (r.1, ⟨r.2.board, tt_store r.2.tt board_hash (d + 1) r.1, r.2.rng⟩)
        else
          let r :=
            ab_loop_min R (fun bt st2 => minimax R d alpha bt true quiescence st2)
              alpha moves1 XInt.pinf beta st
          if quiescence then r
          else (r.1, ⟨r.2.board, tt_store r.2.tt board_hash (d + 1) r.1, r.2.rng⟩)
termination_by structural depth

/-- The root move loop of `ChessGame.find_best_move`.  After pushing a
root move the branch is chosen by the side to move of the *child*
position; note both branches invoke `minimax` with the quiescence flag set
to `True`.  The root `break` fires once `alpha >= beta`, after the pop. -/
def fbm_loop {P M : Type} (R : Rules P M) (depth : Nat) :
    List M → Option M → XInt → XInt → XInt → SearchState P → Option M × SearchState P
  | [], best_move, _, _, _, st => (best_move, st)
  | m :: ms, best_move, best_value, alpha, beta, st =>
    let st1 : SearchState P := ⟨st.board.push R m, st.tt, st.rng⟩
    if R.turn_white st1.board.cur then
      let r := minimax R (depth - 1) alpha beta true true st1
      let best1 := if XInt.blt r.1 best_value then some m else best_move
      let bv1 := if XInt.blt r.1 best_value then r.1 else best_value
      let beta1 := XInt.xmin beta r.1
      let st2 : SearchState P := ⟨r.2.board.pop, r.2.tt, r.2.rng⟩
      if XInt.ble beta1 alpha then (best1, st2)
      else fbm_loop R depth ms best1 bv1 alpha beta1 st2
    else
      let r := minimax R (depth - 1) alpha beta false true st1
      let best1 := if XInt.blt best_value r.1 then some m else best_move
      let bv1 := if XInt.blt best_value r.1 then r.1 else best_value
      let alpha1 := XInt.xmax alpha r.1
      let st2 : SearchState P := ⟨r.2.board.pop, r.2.tt, r.2.rng⟩
      if XInt.ble beta alpha1 then (best1, st2)
      else fbm_loop R depth ms best1 bv1 alpha1 beta st2

/-- `ChessGame.find_best_move(depth)`: `None` on a finished game or an
empty legal-move list; otherwise run the root loop over the ordered moves
and fall back to the first ordered move when the loop selected nothing. -/
def find_best_move {P M : Type} (R : Rules P M) (depth : Nat) (st : SearchState P) :
    Option M × SearchState P :=
  if R.is_game_over st.board.cur then (none, st)
  else
    let legal_moves := R.legal_moves st.board.cur
    if legal_moves.isEmpty then (none, st)
    else
      let ordered := order_moves R st.board.cur legal_moves
      let best_value0 := if R.turn_white st.board.cur then XInt.ninf else XInt.pinf
      let r := fbm_loop R depth ordered none best_value0 XInt.ninf XInt.pinf st
      match r.1 with
      | some mv => (some mv, r.2)
      | none => (ordered.head?, r.2)

/-- The move loop of the unpruned reference minimax: plain max/min fold
over the children, no window, no cutoff, no table. -/
def fm_loop {P M : Type} (R : Rules P M) (child : SearchState P → XInt × SearchState P)
    (maximizing : Bool) : List M → XInt → SearchState P → XInt × SearchState P
  | [], acc, st => (acc, st)
  | m :: ms, acc, st =>
    let st1 : SearchState P := ⟨st.board.push R m, st.tt, st.rng⟩
    let r := child st1
    let st2 : SearchState P := ⟨r.2.board.pop, r.2.tt, r.2.rng⟩
    fm_loop R child maximizing ms
      (if maximizing then XInt.xmax acc r.1 else XInt.xmin acc r.1) st2

/-- Modelled from the spec: the "unpruned full minimax" of the alpha-beta
equivalence property (§8), the comparison point the code's pruned
`minimax` is claimed to agree with.  Same base cases and static leaf
evaluation, same move ordering, but no alpha-beta window, no cutoff and no
transposition table. -/
def full_minimax {P M : Type} (R : Rules P M) (depth : Nat) (maximizing : Bool)
    (st : SearchState P) : XInt × SearchState P :=
  match depth with
  | 0 =>
    let e := evaluate_board R st
    (XInt.fin e.1, e.2)
  | d + 1 =>
    if R.is_game_over st.board.cur then
      let e := evaluate_board R st
      (XInt.fin e.1, e.2)
    else
      let ordered := order_moves R st.board.cur (R.legal_moves st.board.cur)
      fm_loop R (fun st2 => full_minimax R d (!maximizing) st2) maximizing ordered
        (if maximizing then XInt.ninf else XInt.pinf) st
termination_by structural depth

/-- A small concrete instance of the rules-engine interface: a game tree
used to exercise the search.  Position 0 is the root; moves are indices.
Transitions: 0 -0-> 1, 0 -1-> 2, 1 -0-> 3, 1 -1-> 4, 2 -0-> 4 (a
transposition: positions 2 and 1 share the child 4), 3 -0-> 5,
4 -0-> 6, 4 -1-> 7.  Positions 5 and 6 have one legal move and 7 has
twenty, so with no pieces on the board the static evaluations (pure
mobility) are 5, 5 and 100.  Null moves lead to the moveless position
98. -/
def toy1 : Rules Nat Nat where
  legal_moves := fun p =>
    match p with
    | 0 => [0, 1]
    | 1 => [0, 1]
    | 2 => [0]
    | 3 => [0]
    | 4 => [0, 1]
    | 5 => [0]
    | 6 => [0]
    | 7 => List.range 20
    | _ => []
  apply_move := fun p m =>
    match p, m with
    | 0, 0 => 1
    | 0, 1 => 2
    | 1, 0 => 3
    | 1, 1 => 4
    | 2, 0 => 4
    | 3, 0 => 5
    | 4, 0 => 6
    | 4, 1 => 7
    | _, _ => 99
  apply_null := fun _ => 98
  is_game_over := fun _ => false
  is_checkmate := fun _ => false
  is_stalemate := fun _ => false
  is_insufficient_material := fun _ => false
  turn_white := fun p =>
    match p with
    | 1 => false
    | 2 => false
    | _ => true
  fen := fun p =>
    match p with
    | 0 => "a"
    | 1 => "b"
    | 2 => "c"
    | 3 => "d"
    | 4 => "e"
    | 5 => "f"
    | 6 => "g"
    | 7 => "h"
    | _ => "z"
  is_capture := fun _ _ => false
  piece_at := fun _ _ => none
  has_castling_rights := fun _ _ => false
  move_promotion := fun _ => false
  move_from := fun _ => 0
  move_to := fun _ => 0

/-- The root search state on `toy1`: empty transposition table, empty
jitter stream (every draw 0, i.e. a deterministic evaluation). -/
def toySt0 : SearchState Nat := ⟨⟨0, []⟩, [], []⟩

/-- A concrete instance exercising the evaluator's terminal branches:
position 0 is a checkmate with White to move, 1 a checkmate with Black to
move, 2 a stalemate, 3 has insufficient material, and 4 is a bare
non-terminal position whose whole deterministic evaluation is 0 (so its
score equals the jitter draw). -/
def toyT : Rules Nat Nat where
  legal_moves := fun _ => []
  apply_move := fun _ _ => 9
  apply_null := fun _ => 9
  is_game_over := fun p => decide (p ≤ 3)
  is_checkmate := fun p => p == 0 || p == 1
  is_stalemate := fun p => p == 2
  is_insufficient_material := fun p => p == 3
  turn_white := fun p => p != 1
  fen := fun _ => "t"
  is_capture := fun _ _ => false
  piece_at := fun _ _ => none
  has_castling_rights := fun _ _ => false
  move_promotion := fun _ => false
  move_from := fun _ => 0
  move_to := fun _ => 0

/-- A concrete instance for the move orderer: from position 0, move 1 is
a pawn (on square 10) capturing a queen (on square 20), move 0 is a quiet
knight (on square 30) move to square 40, and move 2 is an en-passant-style
capture by a pawn (on square 50): `is_capture` holds but the destination
square 60 is empty, exactly as python-chess reports an en-passant capture
(the captured pawn does not stand on the destination square). -/
def toyC8 : Rules Nat Nat where
  legal_moves := fun _ => [0, 1]
  apply_move := fun _ _ => 9
  apply_null := fun _ => 9
  is_game_over := fun _ => false
  is_checkmate := fun _ => false
  is_stalemate := fun _ => false
  is_insufficient_material := fun _ => false
  turn_white := fun _ => true
  fen := fun _ => "c"
  is_capture := fun _ m => m == 1 || m == 2
  piece_at := fun _ sq =>
    if sq == 10 then some ⟨1, true⟩
    else if sq == 20 then some ⟨5, false⟩
    else if sq == 30 then some ⟨2, true⟩
    else if sq == 50 then some ⟨1, true⟩
    else none
  has_castling_rights := fun _ _ => false
  move_promotion := fun _ => false
  move_from := fun m => if m == 1 then 10 else if m == 2 then 50 else 30
  move_to := fun m => if m == 1 then 20 else if m == 2 then 60 else 40

theorem GBoard.pop_push {P M : Type} (R : Rules P M) (b : GBoard P) (m : M) :
    (b.push R m).pop = b := rfl

theorem GBoard.pop_pushNull {P M : Type} (R : Rules P M) (b : GBoard P) :
    (b.pushNull R).pop = b := rfl

/-- `evaluate_board` in closed form: the returned score is `eval_val` of
the current position and the pending jitter draw; the returned state keeps
the board and the table, consuming one jitter draw exactly on the
non-terminal branch. -/
theorem evaluate_board_eq {P M : Type} (R : Rules P M) (st : SearchState P) :
    evaluate_board R st =
      (eval_val R st.board.cur (st.rng.headD 0),
        if R.is_checkmate st.board.cur
            || (R.is_stalemate st.board.cur || R.is_insufficient_material st.board.cur) then st
        else ⟨st.board, st.tt, st.rng.tail⟩) := by
  unfold evaluate_board eval_val
  cases h1 : R.is_checkmate st.board.cur with
  | true => simp [h1]
  | false =>
    cases h2 : R.is_stalemate st.board.cur || R.is_insufficient_material st.board.cur with
    | true => simp [h1, h2]
    | false =>
      cases h3 : R.turn_white st.board.cur <;>
        simp [h1, h2, h3, GBoard.pushNull, GBoard.pop]

theorem evaluate_board_fst {P M : Type} (R : Rules P M) (st : SearchState P) :
    (evaluate_board R st).1 = eval_val R st.board.cur (st.rng.headD 0) := by
  rw [evaluate_board_eq]

theorem evaluate_board_board {P M : Type} (R : Rules P M) (st : SearchState P) :
    (evaluate_board R st).2.board = st.board := by
  rw [evaluate_board_eq]
  by_cases h : R.is_checkmate st.board.cur
      || (R.is_stalemate st.board.cur || R.is_insufficient_material st.board.cur) <;>
    simp [h]

theorem evaluate_board_tt {P M : Type} (R : Rules P M) (st : SearchState P) :
    (evaluate_board R st).2.tt = st.tt := by
  rw [evaluate_board_eq]
  by_cases h : R.is_checkmate st.board.cur
      || (R.is_stalemate st.board.cur || R.is_insufficient_material st.board.cur) <;>
    simp [h]

/-- The FEN comparison asserted around the mobility null move always
holds: the pop restores exactly the position saved by the push. -/
theorem mobility_assert_true {P M : Type} (R : Rules P M) (b : GBoard P) :
    mobility_assert R b = true := by
  simp [mobility_assert, GBoard.pop_pushNull]

theorem qs_loop_inv {P M : Type} (R : Rules P M)
    (child : XInt → XInt → SearchState P → XInt × SearchState P) (beta : XInt)
    (hchild : ∀ a b st, (child a b st).2.board = st.board ∧ (child a b st).2.tt = st.tt) :
    ∀ (ms : List M) (alpha : XInt) (st : SearchState P),
      (qs_loop R child beta ms alpha st).2.board = st.board ∧
        (qs_loop R child beta ms alpha st).2.tt = st.tt := by
  intro ms
  induction ms with
  | nil => intro alpha st; simp [qs_loop]
  | cons m ms ih =>
    intro alpha st
    simp only [qs_loop]
    have hb := hchild (XInt.xneg beta) (XInt.xneg alpha) ⟨st.board.push R m, st.tt, st.rng⟩
    rw [hb.1, hb.2]
    simp only [GBoard.pop_push]
    split
    · exact ⟨rfl, rfl⟩
    · exact ih _ _

theorem quiescence_search_inv {P M : Type} (R : Rules P M) :
    ∀ (depth : Nat) (alpha beta : XInt) (st : SearchState P),
      (quiescence_search R depth alpha beta st).2.board = st.board ∧
        (quiescence_search R depth alpha beta st).2.tt = st.tt := by
  intro depth
  induction depth with
  | zero =>
    intro alpha beta st
    rw [quiescence_search]
    dsimp only
    split
    · exact ⟨evaluate_board_board R st, evaluate_board_tt R st⟩
    · exact ⟨evaluate_board_board R st, evaluate_board_tt R st⟩
  | succ d ih =>
    intro alpha beta st
    rw [quiescence_search]
    dsimp only
    split
    · exact ⟨evaluate_board_board R st, evaluate_board_tt R st⟩
    · exact ⟨(qs_loop_inv R _ beta (fun a b st2 => ih a b st2) _ _ _).1.trans
          (evaluate_board_board R st),
        (qs_loop_inv R _ beta (fun a b st2 => ih a b st2) _ _ _).2.trans
          (evaluate_board_tt R st)⟩

theorem ab_loop_max_inv {P M : Type} (R : Rules P M)
    (child : XInt → SearchState P → XInt × SearchState P) (beta : XInt)
    (hchild : ∀ a st, (child a st).2.board = st.board) :
    ∀ (ms : List M) (acc alpha : XInt) (st : SearchState P),
      (ab_loop_max R child beta ms acc alpha st).2.board = st.board := by
  intro ms
  induction ms with
  | nil => intro acc alpha st; simp [ab_loop_max]
  | cons m ms ih =>
    intro acc alpha st
    simp only [ab_loop_max]
    rw [hchild alpha ⟨st.board.push R m, st.tt, st.rng⟩]
    simp only [GBoard.pop_push]
    split
    · rfl
    · exact ih _ _ _

theorem ab_loop_min_inv {P M : Type} (R : Rules P M)
    (child : XInt → SearchState P → XInt × SearchState P) (alpha : XInt)
    (hchild : ∀ b st, (child b st).2.board = st.board) :
    ∀ (ms : List M) (acc beta : XInt) (st : SearchState P),
      (ab_loop_min R child alpha ms acc beta st).2.board = st.board := by
  intro ms
  induction ms with
  | nil => intro acc beta st; simp [ab_loop_min]
  | cons m ms ih =>
    intro acc beta st
    simp only [ab_loop_min]
    rw [hchild beta ⟨st.board.push R m, st.tt, st.rng⟩]
    simp only [GBoard.pop_push]
    split
    · rfl
    · exact ih _ _ _

theorem ab_loop_max_tt {P M : Type} (R : Rules P M)
    (child : XInt → SearchState P → XInt × SearchState P) (beta : XInt)
    (hchild : ∀ a st, (child a st).2.tt = st.tt) :
    ∀ (ms : List M) (acc alpha : XInt) (st : SearchState P),
      (ab_loop_max R child beta ms acc alpha st).2.tt = st.tt := by
  intro ms
  induction ms with
  | nil => intro acc alpha st; simp [ab_loop_max]
  | cons m ms ih =>
    intro acc alpha st
    simp only [ab_loop_max]
    rw [hchild alpha ⟨st.board.push R m, st.tt, st.rng⟩]
    split
    · rfl
    · exact ih _ _ _

theorem ab_loop_min_tt {P M : Type} (R : Rules P M)
    (child : XInt → SearchState P → XInt × SearchState P) (alpha : XInt)
    (hchild : ∀ b st, (child b st).2.tt = st.tt) :
    ∀ (ms : List M) (acc beta : XInt) (st : SearchState P),
      (ab_loop_min R child alpha ms acc beta st).2.tt = st.tt := by
  intro ms
  induction ms with
  | nil => intro acc beta st; simp [ab_loop_min]
  | cons m ms ih =>
    intro acc beta st
    simp only [ab_loop_min]
    rw [hchild beta ⟨st.board.push R m, st.tt, st.rng⟩]
    split
    · rfl
    · exact ih _ _ _

theorem minimax_base_inv {P M : Type} (R : Rules P M) (alpha beta : XInt) (q : Bool)
    (st : SearchState P) :
    (minimax_base R alpha beta q st).2.board = st.board ∧
      (minimax_base R alpha beta q st).2.tt = st.tt := by
  unfold minimax_base
  split
  · exact quiescence_search_inv R 3 alpha beta st
  · exact ⟨evaluate_board_board R st, evaluate_board_tt R st⟩

/-- Every path through `minimax` restores the board: each `push` in the
move loops is matched by exactly one `pop`, on the cutoff exits as well. -/
theorem minimax_board {P M : Type} (R : Rules P M) :
    ∀ (depth : Nat) (alpha beta : XInt) (mx q : Bool) (st : SearchState P),
      (minimax R depth alpha beta mx q st).2.board = st.board := by
  intro depth
  induction depth with
  | zero =>
    intro alpha beta mx q st
    rw [minimax]
    split
    · rfl
    · exact (minimax_base_inv R alpha beta q st).1
  | succ d ih =>
    intro alpha beta mx q st
    rw [minimax]
    split
    · rfl
    · dsimp only
      split
      · exact (minimax_base_inv R alpha beta q st).1
      · split
        · split
          · exact ab_loop_max_inv R _ beta (fun a st2 => ih a beta false q st2) _ _ _ st
          · exact ab_loop_max_inv R _ beta (fun a st2 => ih a beta false q st2) _ _ _ st
        · split
          · exact ab_loop_min_inv R _ alpha (fun b st2 => ih alpha b true q st2) _ _ _ st
          · exact ab_loop_min_inv R _ alpha (fun b st2 => ih alpha b true q st2) _ _ _ st

/-- With the quiescence flag set, `minimax` never writes the transposition
table (both the probe and the store are guarded by `not quiescence`). -/
theorem minimax_tt_q {P M : Type} (R : Rules P M) :
    ∀ (depth : Nat) (alpha beta : XInt) (mx : Bool) (st : SearchState P),
      (minimax R depth alpha beta mx true st).2.tt = st.tt := by
  intro depth
  induction depth with
  | zero =>
    intro alpha beta mx st
    rw [minimax]
    split
    · rfl
    · exact (minimax_base_inv R alpha beta true st).2
  | succ d ih =>
    intro alpha beta mx st
    rw [minimax]
    split
    · rfl
    · dsimp only
      split
      · exact (minimax_base_inv R alpha beta true st).2
      · split
        · split
          · exact ab_loop_max_tt R _ beta (fun a st2 => ih a beta false st2) _ _ _ st
          · next h => exact absurd rfl h
        · split
          · exact ab_loop_min_tt R _ alpha (fun b st2 => ih alpha b true st2) _ _ _ st
          · next h => exact absurd rfl h

theorem fbm_loop_inv {P M : Type} (R : Rules P M) (depth : Nat) :
    ∀ (ms : List M) (best : Option M) (bv alpha beta : XInt) (st : SearchState P),
      (fbm_loop R depth ms best bv alpha beta st).2.board = st.board ∧
        (fbm_loop R depth ms best bv alpha beta st).2.tt = st.tt := by
  intro ms
  induction ms with
  | nil => intro best bv alpha beta st; simp [fbm_loop]
  | cons m ms ih =>
    intro best bv alpha beta st
    simp only [fbm_loop]
    split
    · rw [minimax_board R (depth - 1) alpha beta true true ⟨st.board.push R m, st.tt, st.rng⟩,
        minimax_tt_q R (depth - 1) alpha beta true ⟨st.board.push R m, st.tt, st.rng⟩]
      simp only [GBoard.pop_push]
      split
      · exact ⟨rfl, rfl⟩
      · exact ih _ _ _ _ _
    · rw [minimax_board R (depth - 1) alpha beta false true ⟨st.board.push R m, st.tt, st.rng⟩,
        minimax_tt_q R (depth - 1) alpha beta false ⟨st.board.push R m, st.tt, st.rng⟩]
      simp only [GBoard.pop_push]
      split
      · exact ⟨rfl, rfl⟩
      · exact ih _ _ _ _ _

theorem find_best_move_inv {P M : Type} (R : Rules P M) (depth : Nat) (st : SearchState P) :
    (find_best_move R depth st).2.board = st.board ∧
      (find_best_move R depth st).2.tt = st.tt := by
  unfold find_best_move
  split
  · exact ⟨rfl, rfl⟩
  · dsimp only
    split
    · exact ⟨rfl, rfl⟩
    · refine ⟨?_, ?_⟩
      · split
        · exact (fbm_loop_inv R depth _ _ _ _ _ st).1
        · exact (fbm_loop_inv R depth _ _ _ _ _ st).1
      · split
        · exact (fbm_loop_inv R depth _ _ _ _ _ st).2
        · exact (fbm_loop_inv R depth _ _ _ _ _ st).2

/-- Claim C2: for every rules engine, position and depth, `find_best_move`
leaves the position unchanged — the board (current position together with
its undo stack) is identical before and after the call, on every exit path
including the root-level alpha-beta break, and hence so is the position's
canonical FEN key. -/
theorem claim_C2_position_invariance {P M : Type} (R : Rules P M) (depth : Nat)
    (st : SearchState P) :
    (find_best_move R depth st).2.board = st.board ∧
      R.fen (find_best_move R depth st).2.board.cur = R.fen st.board.cur := by
  refine ⟨(find_best_move_inv R depth st).1, ?_⟩
  rw [(find_best_move_inv R depth st).1]

/-- Claim C10: `evaluate_board` leaves the board unchanged — the null move
pushed to measure the opponent's mobility is popped before returning, the
FEN assertion guarding that push/pop pair always holds, and the FEN after
the call equals the FEN before it. -/
theorem claim_C10_evaluate_frame {P M : Type} (R : Rules P M) (st : SearchState P) :
    (evaluate_board R st).2.board = st.board ∧
      R.fen (evaluate_board R st).2.board.cur = R.fen st.board.cur ∧
      mobility_assert R st.board = true := by
  refine ⟨evaluate_board_board R st, ?_, mobility_assert_true R st.board⟩
  rw [evaluate_board_board R st]

theorem order_moves_perm {P M : Type} (R : Rules P M) (b : P) (ms : List M) :
    (order_moves R b ms).Perm ms := by
  unfold order_moves
  have h := (List.perm_insertionSort (fun x y : M × Int => y.2 ≤ x.2)
    (ms.map (fun m => (m, move_score R b m)))).map Prod.fst
  rwa [List.map_map, show Prod.fst ∘ (fun m => (m, move_score R b m)) = id from rfl,
    List.map_id] at h

theorem order_moves_mem {P M : Type} (R : Rules P M) (b : P) (ms : List M) (m : M) :
    m ∈ order_moves R b ms ↔ m ∈ ms :=
  (order_moves_perm R b ms).mem_iff

theorem order_moves_length {P M : Type} (R : Rules P M) (b : P) (ms : List M) :
    (order_moves R b ms).length = ms.length :=
  (order_moves_perm R b ms).length_eq

theorem fbm_loop_result {P M : Type} (R : Rules P M) (depth : Nat) :
    ∀ (ms : List M) (best : Option M) (bv alpha beta : XInt) (st : SearchState P),
      (fbm_loop R depth ms best bv alpha beta st).1 = best ∨
        ∃ m, m ∈ ms ∧ (fbm_loop R depth ms best bv alpha beta st).1 = some m := by
  intro ms
  induction ms with
  | nil => intro best bv alpha beta st; exact Or.inl rfl
  | cons m ms ih =>
    intro best bv alpha beta st
    simp only [fbm_loop]
    split
    · split
      · split
        · exact Or.inr ⟨m, List.mem_cons_self m ms, rfl⟩
        · exact Or.inl rfl
      · rcases ih _ _ _ _ _ with h | ⟨m2, hm2, he⟩
        · rw [h]
          split
          · exact Or.inr ⟨m, List.mem_cons_self m ms, rfl⟩
          · exact Or.inl rfl
        · exact Or.inr ⟨m2, List.mem_cons_of_mem m hm2, he⟩
    · split
      · split
        · exact Or.inr ⟨m, List.mem_cons_self m ms, rfl⟩
        · exact Or.inl rfl
      · rcases ih _ _ _ _ _ with h | ⟨m2, hm2, he⟩
        · rw [h]
          split
          · exact Or.inr ⟨m, List.mem_cons_self m ms, rfl⟩
          · exact Or.inl rfl
        · exact Or.inr ⟨m2, List.mem_cons_of_mem m hm2, he⟩

/-- Claim C5: `find_best_move` returns `none` exactly when the game is
over or there is no legal move; whenever it returns a move, that move is a
member of the position's legal-move list. -/
theorem claim_C5_result_contract {P M : Type} (R : Rules P M) (depth : Nat)
    (st : SearchState P) :
    ((find_best_move R depth st).1 = none ↔
      (R.is_game_over st.board.cur = true ∨ R.legal_moves st.board.cur = [])) ∧
      ∀ m, (find_best_move R depth st).1 = some m → m ∈ R.legal_moves st.board.cur := by
  unfold find_best_move
  split
  · next hgo => exact ⟨⟨fun _ => Or.inl hgo, fun _ => rfl⟩, fun m hm => Option.noConfusion hm⟩
  · next hgo =>
    dsimp only
    split
    · next hemp =>
      exact ⟨⟨fun _ => Or.inr (List.isEmpty_iff.mp hemp), fun _ => rfl⟩,
        fun m hm => Option.noConfusion hm⟩
    · next hemp =>
      have hne : R.legal_moves st.board.cur ≠ [] := fun he => hemp (by simp [he])
      constructor
      · constructor
        · intro hnone
          exfalso
          revert hnone
          split
          · intro hnone; exact Option.noConfusion hnone
          · intro hnone
            have hord : order_moves R st.board.cur (R.legal_moves st.board.cur) = [] :=
              List.head?_eq_none_iff.mp hnone
            have hlen := order_moves_length R st.board.cur (R.legal_moves st.board.cur)
            rw [hord] at hlen
            exact hne (List.length_eq_zero.mp hlen.symm)
        · intro hor
          rcases hor with h | h
          · exact absurd h hgo
          · exact absurd (by simp [h]) hemp
      · intro m hm
        revert hm
        split
        · next heq =>
          intro hm
          rcases fbm_loop_result R depth _ _ _ _ _ st with h | ⟨m2, hmem, he⟩
          · rw [heq] at h; exact Option.noConfusion h
          · rw [heq] at he
            have hmv : m2 = m := by
              have := he.symm.trans hm
              exact Option.some.inj this
            rw [← hmv]
            exact (order_moves_mem R st.board.cur _ m2).mp hmem
        · intro hm
          have hm2 : (order_moves R st.board.cur (R.legal_moves st.board.cur)).head? = some m := hm
          exact (order_moves_mem R st.board.cur _ m).mp (List.mem_of_mem_head? hm2)

instance descTotal {γ : Type} : IsTotal (γ × Int) (fun x y => y.2 ≤ x.2) :=
  ⟨fun a b => le_total b.2 a.2⟩

instance descTrans {γ : Type} : IsTrans (γ × Int) (fun x y => y.2 ≤ x.2) :=
  ⟨fun _ _ _ h1 h2 => le_trans h2 h1⟩

theorem order_moves_sorted {P M : Type} (R : Rules P M) (b : P) (ms : List M) :
    List.Pairwise (fun m1 m2 => move_score R b m2 ≤ move_score R b m1) (order_moves R b ms) := by
  unfold order_moves
  rw [List.pairwise_map]
  have hsorted : List.Sorted (fun x y : M × Int => y.2 ≤ x.2)
      ((ms.map (fun m => (m, move_score R b m))).insertionSort (fun x y => y.2 ≤ x.2)) :=
    List.sorted_insertionSort _ _
  have hmem : ∀ p ∈ (ms.map (fun m => (m, move_score R b m))).insertionSort
      (fun x y => y.2 ≤ x.2), p.2 = move_score R b p.1 := by
    intro p hp
    rw [List.mem_insertionSort] at hp
    rcases List.mem_map.mp hp with ⟨m, _, he⟩
    rw [← he]
  exact List.Pairwise.imp_of_mem
    (fun hp hq h => by rw [hmem _ hp, hmem _ hq] at h; exact h) hsorted

/-- Claim C8 (amended): `_order_moves` returns a permutation of its input
sorted by descending score.  A capturing move receives the MVV-LVA term
`10 * victim - aggressor` only when both the destination and the origin
squares hold a piece; an en-passant capture's destination square is empty,
so its capture term is 0.  Promotions add a flat 900, and every move adds
the destination square's positional-table value for the moving piece
(square mirrored when the mover is black).  A move that strictly outscores
every other — such as a pawn capturing a queen — is placed first. -/
theorem claim_C8_move_ordering {P M : Type} (R : Rules P M) (b : P) (ms : List M) :
    (order_moves R b ms).Perm ms ∧
      List.Pairwise (fun m1 m2 => move_score R b m2 ≤ move_score R b m1) (order_moves R b ms) ∧
      (∀ m victim aggressor, R.is_capture b m = true →
        R.piece_at b (R.move_to m) = some victim →
        R.piece_at b (R.move_from m) = some aggressor →
        move_score R b m =
          10 * piece_vals victim.ptype - piece_vals aggressor.ptype +
            (if R.move_promotion m then 900 else 0) +
            (position_table aggressor.ptype).getD
              (if aggressor.white then R.move_to m else square_mirror (R.move_to m)) 0) ∧
      (∀ m aggressor, R.is_capture b m = true →
        R.piece_at b (R.move_to m) = none →
        R.piece_at b (R.move_from m) = some aggressor →
        move_score R b m =
          (if R.move_promotion m then 900 else 0) +
            (position_table aggressor.ptype).getD
              (if aggressor.white then R.move_to m else square_mirror (R.move_to m)) 0) ∧
      (∀ m, m ∈ ms → (∀ m2, m2 ∈ ms → m2 ≠ m → move_score R b m2 < move_score R b m) →
        (order_moves R b ms).head? = some m) := by
  refine ⟨order_moves_perm R b ms, order_moves_sorted R b ms, ?_, ?_, ?_⟩
  · intro m victim aggressor hc hv ha
    simp [move_score, hc, hv, ha]
  · intro m aggressor hc hv ha
    simp [move_score, hc, hv, ha]
  · intro m hm hstrict
    have hperm := order_moves_perm R b ms
    have hpair := order_moves_sorted R b ms
    cases hord : order_moves R b ms with
    | nil =>
      exfalso
      rw [hord] at hperm
      rw [← hperm.nil_eq] at hm
      exact absurd hm (List.not_mem_nil m)
    | cons mv t =>
      rw [hord] at hperm hpair
      by_cases heq : mv = m
      · rw [heq]
        rfl
      · exfalso
        have hmv_mem : mv ∈ ms := hperm.mem_iff.mp (List.mem_cons_self mv t)
        have hlt := hstrict mv hmv_mem heq
        have hmem2 : m ∈ mv :: t := hperm.mem_iff.mpr hm
        rcases List.mem_cons.mp hmem2 with he | ht
        · exact heq (he.symm)
        · have hle := (List.pairwise_cons.mp hpair).1 m ht
          exact absurd hlt (not_lt.mpr hle)

theorem tt_find_store_self (tt : TTable) (k : String) (d : Nat) (s : XInt) :
    tt_find (tt_store tt k d s) k = some (d, s) := by
  induction tt with
  | nil => simp [tt_store, tt_find]
  | cons e rest ih =>
    rcases e with ⟨k2, d2, s2⟩
    by_cases h : k2 = k <;> simp [tt_store, tt_find, h, ih]

theorem tt_find_store_other (tt : TTable) (k k2 : String) (d : Nat) (s : XInt) (h : k2 ≠ k) :
    tt_find (tt_store tt k d s) k2 = tt_find tt k2 := by
  induction tt with
  | nil => simp [tt_store, tt_find, Ne.symm h]
  | cons e rest ih =>
    rcases e with ⟨k3, d3, s3⟩
    by_cases h3 : k3 = k
    · subst h3
      simp [tt_store, tt_find, Ne.symm h]
    · simp [tt_store, tt_find, h3, ih]

/-- Claim C4: the transposition probe returns a cached score only when the
stored depth is at least the required depth; a shallower entry is a plain
miss; and a store unconditionally overwrites the entry for its key —
whatever depth was stored before — while leaving every other key
untouched. -/
theorem claim_C4_table_contract :
    (∀ (tt : TTable) (k : String) (d : Nat) (s : XInt),
        tt_probe tt k d = some s → ∃ d0, tt_find tt k = some (d0, s) ∧ d ≤ d0) ∧
      (∀ (tt : TTable) (k : String) (d d0 : Nat) (s : XInt),
        tt_find tt k = some (d0, s) → d0 < d → tt_probe tt k d = none) ∧
      (∀ (tt : TTable) (k : String) (d : Nat) (s : XInt),
        tt_find (tt_store tt k d s) k = some (d, s)) ∧
      (∀ (tt : TTable) (k k2 : String) (d : Nat) (s : XInt),
        k2 ≠ k → tt_find (tt_store tt k d s) k2 = tt_find tt k2) := by
  refine ⟨?_, ?_, tt_find_store_self, tt_find_store_other⟩
  · intro tt k d s hp
    unfold tt_probe at hp
    revert hp
    split
    · next d0 s0 heq =>
      split
      · next hle => intro hp; exact ⟨d0, by rw [heq, Option.some.inj hp], hle⟩
      · intro hp; exact Option.noConfusion hp
    · intro hp; exact Option.noConfusion hp
  · intro tt k d d0 s hf hlt
    unfold tt_probe
    rw [hf]
    simp [Nat.not_le.mpr hlt]

/-- Claim C3 (amended): `find_best_move` always invokes `minimax` with the
quiescence flag set, and with that flag set both the transposition probe and
the store are skipped, so a `find_best_move` call returns the table exactly
as it found it.  Only a `minimax` call with the flag off uses the table: it
probes before doing anything else — returning the cached score with the
whole state untouched on a hit at sufficient depth — and, at a non-base
node whose probe missed, stores the returned score under the node's key at
the node's depth before returning. -/
theorem claim_C3_tt_usage {P M : Type} :
    (∀ (R : Rules P M) (depth : Nat) (st : SearchState P),
        (find_best_move R depth st).2.tt = st.tt) ∧
      (∀ (R : Rules P M) (depth : Nat) (alpha beta : XInt) (mx : Bool) (st : SearchState P)
          (d0 : Nat) (s : XInt),
        tt_find st.tt (R.fen st.board.cur) = some (d0, s) → depth ≤ d0 →
        minimax R depth alpha beta mx false st = (s, st)) ∧
      (∀ (R : Rules P M) (d : Nat) (alpha beta : XInt) (mx : Bool) (st : SearchState P),
        tt_probe st.tt (R.fen st.board.cur) (d + 1) = none →
        R.is_game_over st.board.cur = false →
        tt_find ((minimax R (d + 1) alpha beta mx false st).2.tt) (R.fen st.board.cur) =
          some (d + 1, (minimax R (d + 1) alpha beta mx false st).1)) := by
  refine ⟨fun R depth st => (find_best_move_inv R depth st).2, ?_, ?_⟩
  · intro R depth alpha beta mx st d0 s hf hle
    have hp : tt_probe st.tt (R.fen st.board.cur) depth = some s := by
      unfold tt_probe
      rw [hf]
      simp [hle]
    rw [minimax.eq_def]
    simp [hp]
  · intro R d alpha beta mx st hp hgo
    rw [minimax]
    simp only [Bool.false_eq_true, if_false, hp, hgo]
    split
    · exact tt_find_store_self _ _ _ _
    · exact tt_find_store_self _ _ _ _

/-- Claim C6: on terminal positions the evaluator returns exactly the mate
sentinel with the side-dependent sign (−10000 when White is to move and
checkmated, +10000 when Black is to move and checkmated) and exactly 0 for
stalemate or insufficient material; on these branches no random jitter is
applied — the state, including the pending jitter stream, is returned
untouched. -/
theorem claim_C6_terminal_eval {P M : Type} (R : Rules P M) (st : SearchState P) :
    (R.is_checkmate st.board.cur = true →
      evaluate_board R st = ((if R.turn_white st.board.cur then -10000 else 10000), st)) ∧
      (R.is_checkmate st.board.cur = false →
        (R.is_stalemate st.board.cur = true ∨ R.is_insufficient_material st.board.cur = true) →
        evaluate_board R st = (0, st)) := by
  constructor
  · intro h
    unfold evaluate_board
    simp [h]
  · intro h1 h2
    unfold evaluate_board
    rcases h2 with h2 | h2 <;> simp [h1, h2]

/-- Claim C7 (amended): the evaluator's score is a function of the current
position and the pending jitter draw alone: two calls on identical
positions agree whenever their jitter draws agree.  (Two successive calls
consume different draws and may disagree; see the counterexample.) -/
theorem claim_C7_eval_deterministic {P M : Type} (R : Rules P M)
    (st1 st2 : SearchState P) (hb : st1.board.cur = st2.board.cur)
    (hj : st1.rng.headD 0 = st2.rng.headD 0) :
    (evaluate_board R st1).1 = (evaluate_board R st2).1 := by
  rw [evaluate_board_fst, evaluate_board_fst, hb, hj]

theorem order_moves_nil {P M : Type} (R : Rules P M) (b : P) :
    order_moves R b [] = [] := rfl

/-- Claim C9 (amended): the quiescence search computes the stand-pat
evaluation first and fails high with `beta` as soon as stand-pat ≥ beta;
otherwise it raises alpha to stand-pat if higher and recurses only into
the ordered capturing moves in negamax form (score negated, window negated
and swapped, a separate budget decremented each ply).  With no captures
left it returns the raised alpha; with the budget exhausted, however, it
returns the stand-pat evaluation itself, not alpha. -/
theorem claim_C9_quiescence_contract {P M : Type} (R : Rules P M) (qd : Nat)
    (alpha beta : XInt) (st : SearchState P) :
    (XInt.ble beta (XInt.fin (evaluate_board R st).1) = true →
      quiescence_search R qd alpha beta st = (beta, (evaluate_board R st).2)) ∧
      (XInt.ble beta (XInt.fin (evaluate_board R st).1) = false →
        quiescence_search R 0 alpha beta st =
          (XInt.fin (evaluate_board R st).1, (evaluate_board R st).2)) ∧
      (XInt.ble beta (XInt.fin (evaluate_board R st).1) = false →
        (R.legal_moves (evaluate_board R st).2.board.cur).filter
            (fun m => R.is_capture (evaluate_board R st).2.board.cur m) = [] →
        quiescence_search R (qd + 1) alpha beta st =
          ((if XInt.blt alpha (XInt.fin (evaluate_board R st).1)
              then XInt.fin (evaluate_board R st).1 else alpha),
            (evaluate_board R st).2)) ∧
      (XInt.ble beta (XInt.fin (evaluate_board R st).1) = false →
        quiescence_search R (qd + 1) alpha beta st =
          qs_loop R (fun a b st2 => quiescence_search R qd a b st2) beta
            (order_moves R (evaluate_board R st).2.board.cur
              ((R.legal_moves (evaluate_board R st).2.board.cur).filter
                (fun m => R.is_capture (evaluate_board R st).2.board.cur m)))
            (if XInt.blt alpha (XInt.fin (evaluate_board R st).1)
              then XInt.fin (evaluate_board R st).1 else alpha)
            (evaluate_board R st).2) := by
  refine ⟨?_, ?_, ?_, ?_⟩
  · intro h
    rw [quiescence_search]
    simp [h]
  · intro h
    rw [quiescence_search]
    simp [h]
  · intro h hcap
    rw [quiescence_search]
    simp [h, hcap, order_moves_nil, qs_loop]
  · intro h
    rw [quiescence_search]
    simp [h]

theorem XInt.ble_pinf_false {a : XInt} (h : a ≠ XInt.pinf) : XInt.ble XInt.pinf a = false := by
  cases a with
  | ninf => rfl
  | fin n => rfl
  | pinf => exact absurd rfl h

theorem XInt.ble_ninf_false {a : XInt} (h : a ≠ XInt.ninf) : XInt.ble a XInt.ninf = false := by
  cases a with
  | ninf => exact absurd rfl h
  | fin n => rfl
  | pinf => rfl

theorem XInt.xmax_ne_pinf {a b : XInt} (ha : a ≠ XInt.pinf) (hb : b ≠ XInt.pinf) :
    XInt.xmax a b ≠ XInt.pinf := by
  unfold XInt.xmax
  split
  · exact hb
  · exact ha

theorem XInt.xmin_ne_ninf {a b : XInt} (ha : a ≠ XInt.ninf) (hb : b ≠ XInt.ninf) :
    XInt.xmin a b ≠ XInt.ninf := by
  unfold XInt.xmin
  split
  · exact ha
  · exact hb

/-- A depth-0 `minimax` call without the quiescence flag, against an empty
table, is exactly the static evaluation. -/
theorem minimax_zero_empty {P M : Type} (R : Rules P M) (alpha beta : XInt)
    (mx : Bool) (st : SearchState P) (htt : st.tt = []) :
    minimax R 0 alpha beta mx false st =
      (XInt.fin (evaluate_board R st).1, (evaluate_board R st).2) := by
  rw [minimax]
  rw [htt]
  rfl

theorem full_minimax_zero {P M : Type} (R : Rules P M) (mx : Bool) (st : SearchState P) :
    full_minimax R 0 mx st = (XInt.fin (evaluate_board R st).1, (evaluate_board R st).2) := by
  rw [full_minimax]

/-- At depth 1 with an empty table and the window `(-inf, +inf)`, the
maximizing code loop coincides with the unpruned fold: child calls are
plain evaluations, the table stays empty, and the cutoff `beta <= alpha`
can never fire because `beta = +inf` while `alpha` stays below it. -/
theorem depth1_loop_max {P M : Type} (R : Rules P M) :
    ∀ (ms : List M) (acc alpha : XInt) (st : SearchState P),
      st.tt = [] → acc ≠ XInt.pinf → alpha ≠ XInt.pinf →
      ab_loop_max R (fun a st2 => minimax R 0 a XInt.pinf false false st2) XInt.pinf
          ms acc alpha st =
        fm_loop R (fun st2 => full_minimax R 0 false st2) true ms acc st := by
  intro ms
  induction ms with
  | nil => intro acc alpha st htt hacc halpha; rfl
  | cons m ms ih =>
    intro acc alpha st htt hacc halpha
    simp only [ab_loop_max, fm_loop]
    rw [minimax_zero_empty R alpha XInt.pinf false ⟨st.board.push R m, st.tt, st.rng⟩ htt,
      full_minimax_zero R false ⟨st.board.push R m, st.tt, st.rng⟩]
    rw [XInt.ble_pinf_false
      (XInt.xmax_ne_pinf halpha (fun h => XInt.noConfusion h))]
    simp only [if_false, Bool.false_eq_true]
    exact ih _ _ _ ((evaluate_board_tt R _).trans htt) (XInt.xmax_ne_pinf hacc
      (fun h => XInt.noConfusion h)) (XInt.xmax_ne_pinf halpha (fun h => XInt.noConfusion h))

/-- The minimizing counterpart of `depth1_loop_max`. -/
theorem depth1_loop_min {P M : Type} (R : Rules P M) :
    ∀ (ms : List M) (acc beta : XInt) (st : SearchState P),
      st.tt = [] → acc ≠ XInt.ninf → beta ≠ XInt.ninf →
      ab_loop_min R (fun b st2 => minimax R 0 XInt.ninf b true false st2) XInt.ninf
          ms acc beta st =
        fm_loop R (fun st2 => full_minimax R 0 true st2) false ms acc st := by
  intro ms
  induction ms with
  | nil => intro acc beta st htt hacc hbeta; rfl
  | cons m ms ih =>
    intro acc beta st htt hacc hbeta
    simp only [ab_loop_min, fm_loop]
    rw [minimax_zero_empty R XInt.ninf beta true ⟨st.board.push R m, st.tt, st.rng⟩ htt,
      full_minimax_zero R true ⟨st.board.push R m, st.tt, st.rng⟩]
    rw [XInt.ble_ninf_false
      (XInt.xmin_ne_ninf hbeta (fun h => XInt.noConfusion h))]
    simp only [if_false, Bool.false_eq_true]
    exact ih _ _ _ ((evaluate_board_tt R _).trans htt) (XInt.xmin_ne_ninf hacc
      (fun h => XInt.noConfusion h)) (XInt.xmin_ne_ninf hbeta (fun h => XInt.noConfusion h))

theorem tt_probe_nil (k : String) (d : Nat) : tt_probe [] k d = none := rfl

/-- Claim C1 (amended): at depth 1, starting from an empty transposition
table, `minimax` with pruning enabled and the root window `(-inf, +inf)`
returns the same score as the unpruned full minimax — pruning alone does
not change the depth-1 result.  (At greater depths the claim fails: the
table stores cut-node bounds and serves them as exact scores, and pruning
desynchronises the jitter stream; see the counterexample at depth 3.) -/
theorem claim_C1_pruning_equiv_depth1 {P M : Type} (R : Rules P M) (mx : Bool)
    (st : SearchState P) (htt : st.tt = []) :
    (minimax R 1 XInt.ninf XInt.pinf mx false st).1 = (full_minimax R 1 mx st).1 := by
  rcases st with ⟨b, tt, rng⟩
  have htt2 : tt = [] := htt
  subst htt2
  rw [minimax, full_minimax]
  simp only [tt_probe_nil, Bool.false_eq_true, if_false]
  split
  · simp [minimax_base]
  · cases mx with
    | true =>
      simp only [Bool.not_true, if_true]
      rw [depth1_loop_max R _ XInt.ninf XInt.ninf ⟨b, [], rng⟩ rfl
        (fun h => XInt.noConfusion h) (fun h => XInt.noConfusion h)]
    | false =>
      simp only [Bool.not_false, if_false]
      rw [depth1_loop_min R _ XInt.pinf XInt.pinf ⟨b, [], rng⟩ rfl
        (fun h => XInt.noConfusion h) (fun h => XInt.noConfusion h)]
      simp

/-- The quiet evaluation state used by the terminal/evaluator claims:
position 4 of `toyT`, empty table, empty jitter stream. -/
def toyStT4 : SearchState Nat := ⟨⟨4, []⟩, [], []⟩

/-- Counterexample to claim C1 as stated: on `toy1` at depth 3, with a
deterministic evaluation (every jitter draw 0) and an initially empty
table, pruned `minimax` from the full window returns 5 while the unpruned
full minimax returns 100.  The search stores the cut-node bound 5 for
position 4 (reached as 1 -d-> 4) and later serves it as the exact score
when position 4 transposes in via 2 -h-> 4, so root move b's true score
100 is never seen. -/
theorem claim_C1_counterexample :
    (minimax toy1 3 XInt.ninf XInt.pinf true false toySt0).1 = XInt.fin 5 ∧
      (full_minimax toy1 3 true toySt0).1 = XInt.fin 100 ∧
      (minimax toy1 3 XInt.ninf XInt.pinf true false toySt0).1 ≠
        (full_minimax toy1 3 true toySt0).1 := by
  exact ⟨by decide, by decide, by decide⟩

/-- Witness for the amended claim C1 at a concrete input. -/
theorem claim_C1_witness :
    toySt0.tt = [] ∧
      (minimax toy1 1 XInt.ninf XInt.pinf true false toySt0).1 =
        (full_minimax toy1 1 true toySt0).1 :=
  ⟨rfl, claim_C1_pruning_equiv_depth1 toy1 true toySt0 rfl⟩

/-- Counterexample to claim C3 as stated: a `find_best_move` search that
visits plenty of `minimax` nodes neither stores anything (the table comes
back exactly as it went in, here empty) nor probes (poisoning the table
entries for both root children with absurd scores at depth 9 changes
neither the chosen move nor the table). -/
theorem claim_C3_counterexample :
    (find_best_move toy1 2 toySt0).1 = some 1 ∧
      (find_best_move toy1 2 toySt0).2.tt = [] ∧
      (find_best_move toy1 2
          ⟨⟨0, []⟩, [("b", 9, XInt.fin 777), ("c", 9, XInt.fin (-777))], []⟩).1 = some 1 ∧
      (find_best_move toy1 2
          ⟨⟨0, []⟩, [("b", 9, XInt.fin 777), ("c", 9, XInt.fin (-777))], []⟩).2.tt =
        [("b", 9, XInt.fin 777), ("c", 9, XInt.fin (-777))] := by
  exact ⟨by decide, by decide, by decide, by decide⟩

/-- Witness for the amended claim C3 at concrete inputs: a table-preserving
`find_best_move`, a probe hit returned verbatim by a flag-off `minimax`,
and a store visible under the node's key after a flag-off `minimax`. -/
theorem claim_C3_witness :
    (find_best_move toy1 2 toySt0).2.tt = toySt0.tt ∧
      minimax toy1 2 XInt.ninf XInt.pinf true false ⟨⟨0, []⟩, [("a", 5, XInt.fin 7)], []⟩ =
        (XInt.fin 7, ⟨⟨0, []⟩, [("a", 5, XInt.fin 7)], []⟩) ∧
      tt_find ((minimax toy1 1 XInt.ninf XInt.pinf true false toySt0).2.tt) "a" =
        some (1, (minimax toy1 1 XInt.ninf XInt.pinf true false toySt0).1) :=
  ⟨(@claim_C3_tt_usage Nat Nat).1 toy1 2 toySt0,
    (@claim_C3_tt_usage Nat Nat).2.1 toy1 2 XInt.ninf XInt.pinf true
      ⟨⟨0, []⟩, [("a", 5, XInt.fin 7)], []⟩ 5 (XInt.fin 7) (by decide) (by decide),
    (@claim_C3_tt_usage Nat Nat).2.2 toy1 0 XInt.ninf XInt.pinf true toySt0
      (by decide) (by decide)⟩

/-- Witness for claim C4 at concrete inputs: a depth-2 entry is a miss for
a depth-3 query, and a store at depth 1 overwrites a depth-2 entry. -/
theorem claim_C4_witness :
    tt_probe [("x", 2, XInt.fin 7)] "x" 3 = none ∧
      tt_find (tt_store [("x", 2, XInt.fin 7)] "x" 1 (XInt.fin 9)) "x" = some (1, XInt.fin 9) :=
  ⟨claim_C4_table_contract.2.1 [("x", 2, XInt.fin 7)] "x" 3 2 (XInt.fin 7) (by decide)
      (by decide),
    claim_C4_table_contract.2.2.1 [("x", 2, XInt.fin 7)] "x" 1 (XInt.fin 9)⟩

/-- Witness for claim C5 at a concrete input: the search on `toy1` returns
move 1, which is legal at the root. -/
theorem claim_C5_witness :
    (find_best_move toy1 2 toySt0).1 = some 1 ∧ 1 ∈ toy1.legal_moves 0 :=
  ⟨by decide, (claim_C5_result_contract toy1 2 toySt0).2 1 (by decide)⟩

/-- Witness for claim C6 at concrete inputs: both checkmate signs, a
stalemate, and an insufficient-material position, each with a pending
jitter draw that is visibly not consumed. -/
theorem claim_C6_witness :
    evaluate_board toyT ⟨⟨0, []⟩, [], [5]⟩ = (-10000, ⟨⟨0, []⟩, [], [5]⟩) ∧
      evaluate_board toyT ⟨⟨1, []⟩, [], [5]⟩ = (10000, ⟨⟨1, []⟩, [], [5]⟩) ∧
      evaluate_board toyT ⟨⟨2, []⟩, [], [5]⟩ = (0, ⟨⟨2, []⟩, [], [5]⟩) ∧
      evaluate_board toyT ⟨⟨3, []⟩, [], [5]⟩ = (0, ⟨⟨3, []⟩, [], [5]⟩) :=
  ⟨((claim_C6_terminal_eval toyT ⟨⟨0, []⟩, [], [5]⟩).1 (by decide)).trans (by decide),
    ((claim_C6_terminal_eval toyT ⟨⟨1, []⟩, [], [5]⟩).1 (by decide)).trans (by decide),
    (claim_C6_terminal_eval toyT ⟨⟨2, []⟩, [], [5]⟩).2 (by decide) (Or.inl (by decide)),
    (claim_C6_terminal_eval toyT ⟨⟨3, []⟩, [], [5]⟩).2 (by decide) (Or.inr (by decide))⟩

/-- Counterexample to claim C7 as stated: two successive `evaluate_board`
calls on the identical position (the second runs on the state the first
returned, whose board is unchanged) disagree — the first consumes jitter
draw 0 and returns 0, the second consumes draw 7 and returns 7. -/
theorem claim_C7_counterexample :
    (evaluate_board toyT ⟨⟨4, []⟩, [], [0, 7]⟩).2.board.cur =
        (⟨⟨4, []⟩, [], [0, 7]⟩ : SearchState Nat).board.cur ∧
      (evaluate_board toyT ⟨⟨4, []⟩, [], [0, 7]⟩).1 = 0 ∧
      (evaluate_board toyT ((evaluate_board toyT ⟨⟨4, []⟩, [], [0, 7]⟩).2)).1 = 7 ∧
      (evaluate_board toyT ⟨⟨4, []⟩, [], [0, 7]⟩).1 ≠
        (evaluate_board toyT ((evaluate_board toyT ⟨⟨4, []⟩, [], [0, 7]⟩).2)).1 := by
  exact ⟨by decide, by decide, by decide, by decide⟩

/-- Witness for the amended claim C7 at concrete inputs: two states with
the same position and the same pending draw — but different stacks, tables
and stream tails — evaluate to the same score. -/
theorem claim_C7_witness :
    (evaluate_board toyT ⟨⟨4, [7]⟩, [], [3, 9]⟩).1 =
      (evaluate_board toyT ⟨⟨4, []⟩, [("q", 1, XInt.fin 2)], [3]⟩).1 :=
  claim_C7_eval_deterministic toyT ⟨⟨4, [7]⟩, [], [3, 9]⟩
    ⟨⟨4, []⟩, [("q", 1, XInt.fin 2)], [3]⟩ rfl rfl

/-- Counterexample to claim C8 as stated: move 2 of `toyC8` is a capture
by a white pawn (on square 50) whose destination square 60 is empty — the
shape python-chess gives an en-passant capture, whose victim is a pawn
worth 100.  The claimed MVV-LVA score for it would be
`10 * 100 - 100 = 900` plus the positional term, but the code reads the
victim from the destination square, finds none, and scores the capture
term 0: the move scores 0, not 900. -/
theorem claim_C8_counterexample :
    toyC8.is_capture 0 2 = true ∧
      toyC8.piece_at 0 (toyC8.move_from 2) = some ⟨1, true⟩ ∧
      toyC8.piece_at 0 (toyC8.move_to 2) = none ∧
      move_score toyC8 0 2 = 0 ∧
      move_score toyC8 0 2 ≠
        10 * piece_vals 1 - piece_vals 1 + (if toyC8.move_promotion 2 then 900 else 0) +
          (position_table 1).getD (toyC8.move_to 2) 0 := by
  exact ⟨by decide, by decide, by decide, by decide, by decide⟩

/-- Witness for the amended claim C8 at concrete inputs: the
pawn-takes-queen move strictly outscores the quiet knight move (8930
against −30) and is placed first; its score matches the MVV-LVA formula;
and the en-passant-style capture with an empty destination square gets no
capture term. -/
theorem claim_C8_witness :
    (order_moves toyC8 0 [0, 1]).head? = some 1 ∧
      move_score toyC8 0 1 =
        10 * piece_vals 5 - piece_vals 1 + (if toyC8.move_promotion 1 then 900 else 0) +
          (position_table 1).getD (if true then toyC8.move_to 1 else square_mirror
            (toyC8.move_to 1)) 0 ∧
      move_score toyC8 0 1 = 8930 ∧
      move_score toyC8 0 2 =
        (if toyC8.move_promotion 2 then 900 else 0) +
          (position_table 1).getD (if true then toyC8.move_to 2 else square_mirror
            (toyC8.move_to 2)) 0 :=
  ⟨(claim_C8_move_ordering toyC8 0 [0, 1]).2.2.2.2 1 (by decide) (by decide),
    (claim_C8_move_ordering toyC8 0 [0, 1]).2.2.1 1 ⟨5, false⟩ ⟨1, true⟩ (by decide)
      (by decide) (by decide),
    by decide,
    (claim_C8_move_ordering toyC8 0 [0, 1]).2.2.2.1 2 ⟨1, true⟩ (by decide)
      (by decide) (by decide)⟩

/-- Counterexample to claim C9 as stated: with the quiescence budget
exhausted (depth 0), alpha 50 and beta 100, the code returns the stand-pat
evaluation 0 — not "the best alpha found", which is 50. -/
theorem claim_C9_counterexample :
    (quiescence_search toyT 0 (XInt.fin 50) (XInt.fin 100) toyStT4).1 = XInt.fin 0 ∧
      (quiescence_search toyT 0 (XInt.fin 50) (XInt.fin 100) toyStT4).1 ≠ XInt.fin 50 := by
  exact ⟨by decide, by decide⟩

/-- Witness for the amended claim C9 at concrete inputs: a stand-pat
fail-high returning beta, a budget-exhausted call returning stand-pat, and
a capture-less call returning the raised alpha. -/
theorem claim_C9_witness :
    quiescence_search toyT 2 (XInt.fin (-9)) (XInt.fin (-5)) toyStT4 =
        (XInt.fin (-5), toyStT4) ∧
      quiescence_search toyT 0 (XInt.fin 50) (XInt.fin 100) toyStT4 =
        (XInt.fin 0, toyStT4) ∧
      quiescence_search toyT 1 (XInt.fin 50) (XInt.fin 100) toyStT4 =
        (XInt.fin 50, toyStT4) :=
  ⟨((claim_C9_quiescence_contract toyT 2 (XInt.fin (-9)) (XInt.fin (-5)) toyStT4).1
      (by decide)).trans (by decide),
    ((claim_C9_quiescence_contract toyT 0 (XInt.fin 50) (XInt.fin 100) toyStT4).2.1
      (by decide)).trans (by decide),
    ((claim_C9_quiescence_contract toyT 0 (XInt.fin 50) (XInt.fin 100) toyStT4).2.2.1
      (by decide) (by decide)).trans (by decide)⟩
